import Mathlib

/-!
A shallow embedding of the timetracker program (the C sources and the
config-file format they share).  The timer record, the timer engine
operations, the config loader and the persistence format are modelled as
executable Lean definitions translated from the source, and the
behavioural properties of the program are proved against them.

Time values (time_t in the source) are modelled as unbounded integers;
lines of the configuration file are lists of characters, exactly as the
byte strings handed to parse_timetracker by the fgets loop.
-/

/-- The timer record, from struct timetracker: the display name, the
running flag, the seconds banked while stopped, and the absolute instant a
running timer reaches zero. -/
structure Timetracker where
  name : List Char
  running : Bool
  remaining_seconds : Int
  finish_time : Int
deriving DecidableEq

/-- TT_NAME_SZ from the source. -/
def TT_NAME_SZ : Nat := 80

/-- MAX_TIMETRACKERS from the source (the color curses variant uses 9). -/
def MAX_TIMETRACKERS : Nat := 9

/-- Result of parse_timetracker: a skipped line (return 0), a negative
error code, or one parsed timer written through the out parameter. -/
inductive ParseOut where
  | skip : ParseOut
  | err : Int → ParseOut
  | tt : Timetracker → ParseOut
deriving DecidableEq

/-- timetracker_off from the source, with the current time an argument:
a no-op on a stopped timer; otherwise the distance to the finish time is
banked, clamped to zero when the finish time has already passed. -/
def timetracker_off (t : Timetracker) (now : Int) : Timetracker :=
  if t.running = false then t
  else if t.finish_time ≤ now then
    { t with remaining_seconds := 0, running := false, finish_time := 0 }
  else
    { t with remaining_seconds := t.finish_time - now, running := false,
             finish_time := 0 }

/-- timetracker_on from the source, with the current time an argument:
a no-op on a running timer; otherwise the finish time becomes now plus the
banked seconds and the banked field is cleared. -/
def timetracker_on (t : Timetracker) (now : Int) : Timetracker :=
  if t.running = true then t
  else
    { t with finish_time := now + t.remaining_seconds, running := true,
             remaining_seconds := 0 }

/-- The digit-key dispatch in main: turn a running timer off and a stopped
timer on. -/
def toggle (t : Timetracker) (now : Int) : Timetracker :=
  if t.running = true then timetracker_off t now else timetracker_on t now

/-- The per-timer read performed by draw_timetrackers on every redraw: the
displayed remaining time together with the possibly self-healed timer
state (a running timer whose finish time lies strictly in the past is
turned off in place and shown as zero). -/
def observe (t : Timetracker) (now : Int) : Int × Timetracker :=
  if t.running = false then (t.remaining_seconds, t)
  else if t.finish_time < now then (0, timetracker_off t now)
  else (t.finish_time - now, t)

/-- Modelled from the spec: the C sources define no zero operation (only
the Ruby variant has a Zeroer, on its own task model); spec section 4.2
describes zero as turnOff followed by forcing remaining_seconds to 0. -/
def zero (t : Timetracker) (now : Int) : Timetracker :=
  { timetracker_off t now with remaining_seconds := 0 }

/-- The effective remaining time of a timer, as the toggle involution
claim defines it: the banked seconds when stopped, the clamped distance to
the finish time when running. -/
def effectiveRemaining (t : Timetracker) (now : Int) : Int :=
  if t.running = true then max 0 (t.finish_time - now) else t.remaining_seconds

/-- The characters accepted by isspace in the C locale, skipped by the %d
conversion of sscanf. -/
def isSpaceChar (c : Char) : Bool :=
  c = ' ' || c = '\t' || c = '\n' || c = '\x0b' || c = '\x0c' || c = '\r'

/-- Numeric value of a decimal digit character. -/
def digitVal (c : Char) : Int :=
  (c.toNat : Int) - 48

/-- Value of a decimal digit string, most significant digit first, folded
onto an accumulator. -/
def digitsToIntFrom (a : Int) : List Char → Int
  | [] => a
  | c :: rest => digitsToIntFrom (a * 10 + digitVal c) rest

/-- Value of a decimal digit string, most significant digit first. -/
def digitsToInt (ds : List Char) : Int :=
  digitsToIntFrom 0 ds

/-- Maximal leading run of decimal digits. -/
def takeDigits (s : List Char) : List Char :=
  s.takeWhile (fun c => c.isDigit)

/-- The digit part of the %d conversion: a nonempty maximal digit run,
negated when a minus sign was consumed; anything after the run is left
unread. -/
def scanIntSigned (s : List Char) (neg : Bool) : Option Int :=
  if (takeDigits s).isEmpty then none
  else some (if neg then -(digitsToInt (takeDigits s)) else digitsToInt (takeDigits s))

/-- The %d conversion of sscanf: skip whitespace, an optional sign, then a
nonempty digit run. -/
def scanInt (s : List Char) : Option Int :=
  if (s.dropWhile isSpaceChar).head? = some '-' then
    scanIntSigned (s.dropWhile isSpaceChar).tail true
  else if (s.dropWhile isSpaceChar).head? = some '+' then
    scanIntSigned (s.dropWhile isSpaceChar).tail false
  else scanIntSigned (s.dropWhile isSpaceChar) false

/-- The %80[^=] conversion of sscanf: a maximal run of at most TT_NAME_SZ
characters different from the separator. -/
def scanName (s : List Char) : List Char :=
  (s.takeWhile (fun c => c ≠ '=')).take TT_NAME_SZ

/-- sscanf(line, "%80[^=]=%dM", name, &minutes) reaching a return value of
2: a nonempty name runs up to the literal separator, then a signed decimal
integer; the trailing literal M is not needed for the count to reach 2, so
it is not checked. -/
def sscanf_name_minutes (s : List Char) : Option (List Char × Int) :=
  if (scanName s).isEmpty then none
  else if (s.drop (scanName s).length).head? = some '=' then
    match scanInt (s.drop (scanName s).length).tail with
    | some n => some (scanName s, n)
    | none => none
  else none

/-- The newline trimming step of parse_timetracker: drop one trailing
newline when present. -/
def trimNewline (line : List Char) : List Char :=
  if line.getLast? = some '\n' then line.dropLast else line

/-- parse_timetracker from the source: a line starting with the comment
marker is skipped, then a line of length zero is skipped, then one
trailing newline is trimmed, and the sscanf match runs on the rest; a
failed match returns the error code -1000, a successful one a stopped
timer holding the scanned minutes times 60. -/
def parse_timetracker (line : List Char) : ParseOut :=
  if line.head? = some '#' then ParseOut.skip
  else if line.length < 1 then ParseOut.skip
  else
    match sscanf_name_minutes (trimNewline line) with
    | some p => ParseOut.tt ⟨p.1, false, p.2 * 60, 0⟩
    | none => ParseOut.err (-1000)

/-- The fgets loop of get_timetrackers: every line read first hits the
capacity check, then the parser; a parse error aborts the load, a parsed
timer is appended to the array. -/
def ttLoop : List (List Char) → List Timetracker → Option (List Timetracker)
  | [], acc => some acc
  | l :: rest, acc =>
    if MAX_TIMETRACKERS ≤ acc.length then none
    else
      match parse_timetracker l with
      | ParseOut.skip => ttLoop rest acc
      | ParseOut.err _ => none
      | ParseOut.tt t => ttLoop rest (acc ++ [t])

/-- get_timetrackers from the source, applied to the sequence of lines the
fgets loop reads from the file: run the loop from an empty array and fail
when no timer at all was parsed. -/
def get_timetrackers (lines : List (List Char)) : Option (List Timetracker) :=
  match ttLoop lines [] with
  | none => none
  | some acc => if acc.length = 0 then none else some acc

/-- Decimal digits of a natural number, most significant first. -/
def natToDigits (n : Nat) : List Char :=
  if h : n < 10 then [Nat.digitChar n]
  else natToDigits (n / 10) ++ [Nat.digitChar (n % 10)]
decreasing_by omega

/-- Decimal rendering of an integer, with a sign for negative values. -/
def intToDigits (i : Int) : List Char :=
  if i < 0 then '-' :: natToDigits i.natAbs else natToDigits i.natAbs

/-- A config line of the valid shape: name, separator, decimal minutes,
unit marker, trailing newline. -/
def mkConfigLine (nm : List Char) (n : Nat) : List Char :=
  nm ++ '=' :: (natToDigits n ++ ['M', '\n'])

/-- Wellformedness of a timer name under the config format: nonempty,
within the name buffer, free of the separator, and not starting with the
comment marker. -/
def ValidName (nm : List Char) : Prop :=
  nm ≠ [] ∧ nm.length ≤ TT_NAME_SZ ∧ '=' ∉ nm ∧ nm.head? ≠ some '#'

instance : DecidablePred ValidName := fun nm => by
  unfold ValidName; infer_instance

/-- Modelled from the spec: the C sources have no save (the Ruby Saver
writes its own task format); spec section 4.3 says save emits one
name=minutesM line per timer in collection order, the minutes rounded
down (a floor, as the Ruby variant computes it) from the remaining
seconds. -/
def saveLine (t : Timetracker) : List Char :=
  t.name ++ '=' :: (intToDigits (Int.fdiv t.remaining_seconds 60) ++ ['M', '\n'])

/-- Modelled from the spec: serialize the whole set, one line per timer,
in collection order. -/
def save (ts : List Timetracker) : List (List Char) :=
  ts.map saveLine

/-- The data-model invariant: the field not selected by the running flag
is pinned to zero. -/
def TimerInv (t : Timetracker) : Prop :=
  (t.running = false → t.finish_time = 0) ∧
  (t.running = true → t.remaining_seconds = 0)

instance : DecidablePred TimerInv := fun t => by
  unfold TimerInv; infer_instance

/-! ### List helpers -/

theorem drop_append_len (xs ys : List Char) : (xs ++ ys).drop xs.length = ys := by
  induction xs with
  | nil => rfl
  | cons x xs ih => simpa using ih

theorem takeWhile_append_stop (p : Char → Bool) (xs : List Char) (y : Char)
    (ys : List Char) (hall : ∀ c ∈ xs, p c = true) (hy : p y = false) :
    (xs ++ y :: ys).takeWhile p = xs := by
  induction xs with
  | nil => simp [List.takeWhile_cons, hy]
  | cons x xs ih =>
    have hx : p x = true := hall x (by simp)
    simp only [List.cons_append, List.takeWhile_cons, hx, if_true]
    rw [ih (fun c hc => hall c (by simp [hc]))]

theorem take_eq_of_len_le : ∀ (xs : List Char) (n : Nat), xs.length ≤ n → xs.take n = xs := by
  intro xs
  induction xs with
  | nil => intro n _; simp
  | cons x xs ih =>
    intro n h
    cases n with
    | zero => simp at h
    | succ m => simp [List.take_succ_cons, ih m (by simpa using h)]

/-! ### Digit printing and parsing -/

theorem digitVal_digitChar (d : Nat) (h : d < 10) : digitVal (Nat.digitChar d) = (d : Int) := by
  interval_cases d <;> decide

theorem isDigit_digitChar (d : Nat) (h : d < 10) : (Nat.digitChar d).isDigit = true := by
  interval_cases d <;> decide

theorem natToDigits_ne_nil (n : Nat) : natToDigits n ≠ [] := by
  rw [natToDigits]
  split <;> simp

theorem natToDigits_all_digit (n : Nat) : ∀ c ∈ natToDigits n, c.isDigit = true := by
  induction n using Nat.strong_induction_on with
  | _ n ih =>
    rw [natToDigits]
    split
    · next h =>
      intro c hc
      simp only [List.mem_singleton] at hc
      subst hc
      exact isDigit_digitChar n h
    · next h =>
      intro c hc
      simp only [List.mem_append, List.mem_singleton] at hc
      rcases hc with hc | hc
      · exact ih (n / 10) (by omega) c hc
      · subst hc
        exact isDigit_digitChar (n % 10) (by omega)

theorem digitsToIntFrom_append (a : Int) (xs ys : List Char) :
    digitsToIntFrom a (xs ++ ys) = digitsToIntFrom (digitsToIntFrom a xs) ys := by
  induction xs generalizing a with
  | nil => rfl
  | cons x xs ih => simp [digitsToIntFrom, ih]

theorem digitsToIntFrom_natToDigits (n : Nat) :
    ∀ a : Int, digitsToIntFrom a (natToDigits n) = a * 10 ^ (natToDigits n).length + n := by
  induction n using Nat.strong_induction_on with
  | _ n ih =>
    intro a
    rw [natToDigits]
    split
    · next h =>
      simp [digitsToIntFrom, digitVal_digitChar n h]
    · next h =>
      rw [digitsToIntFrom_append, ih (n / 10) (by omega)]
      have hlen : (natToDigits (n / 10) ++ [Nat.digitChar (n % 10)]).length
          = (natToDigits (n / 10)).length + 1 := by simp
      rw [hlen]
      simp only [digitsToIntFrom]
      rw [digitVal_digitChar (n % 10) (by omega), pow_succ]
      have h1 : (n : Int) = 10 * ((n / 10 : Nat) : Int) + ((n % 10 : Nat) : Int) := by
        omega
      linear_combination -h1

theorem digitsToInt_natToDigits (n : Nat) : digitsToInt (natToDigits n) = (n : Int) := by
  have h := digitsToIntFrom_natToDigits n 0
  simpa [digitsToInt] using h

/-! ### Scanner lemmas -/

theorem digit_not_space (c : Char) (h : c.isDigit = true) : isSpaceChar c = false := by
  cases hb : isSpaceChar c with
  | false => rfl
  | true =>
    exfalso
    have hs := hb
    simp only [isSpaceChar, Bool.or_eq_true, decide_eq_true_eq] at hs
    rcases hs with ((((h1 | h1) | h1) | h1) | h1) | h1 <;> subst h1 <;>
      exact absurd h (by decide)

theorem digit_ne_minus (c : Char) (h : c.isDigit = true) : ¬(c = '-') := by
  intro hc
  subst hc
  exact absurd h (by decide)

theorem digit_ne_plus (c : Char) (h : c.isDigit = true) : ¬(c = '+') := by
  intro hc
  subst hc
  exact absurd h (by decide)

theorem takeDigits_digits (n : Nat) (rest : List Char) :
    takeDigits (natToDigits n ++ 'M' :: rest) = natToDigits n :=
  takeWhile_append_stop _ _ _ _ (natToDigits_all_digit n) (by decide)

theorem scanIntSigned_digits (n : Nat) (rest : List Char) (neg : Bool) :
    scanIntSigned (natToDigits n ++ 'M' :: rest) neg
      = some (if neg then -(n : Int) else (n : Int)) := by
  unfold scanIntSigned
  rw [takeDigits_digits]
  simp [List.isEmpty_iff, natToDigits_ne_nil n, digitsToInt_natToDigits]

theorem dropWhile_space_digits (n : Nat) (rest : List Char) :
    (natToDigits n ++ 'M' :: rest).dropWhile isSpaceChar = natToDigits n ++ 'M' :: rest := by
  obtain ⟨c, cs, hcons⟩ := List.exists_cons_of_ne_nil (natToDigits_ne_nil n)
  have hcd : c.isDigit = true := natToDigits_all_digit n c (by rw [hcons]; simp)
  rw [hcons, List.cons_append, List.dropWhile_cons, digit_not_space c hcd]
  simp

theorem scanInt_digits (n : Nat) (rest : List Char) :
    scanInt (natToDigits n ++ 'M' :: rest) = some (n : Int) := by
  obtain ⟨c, cs, hcons⟩ := List.exists_cons_of_ne_nil (natToDigits_ne_nil n)
  have hcd : c.isDigit = true := natToDigits_all_digit n c (by rw [hcons]; simp)
  have hhd : (natToDigits n ++ 'M' :: rest).head? = some c := by
    rw [hcons]; simp
  have h1 : ¬((natToDigits n ++ 'M' :: rest).head? = some '-') := by
    rw [hhd]; simpa using digit_ne_minus c hcd
  have h2 : ¬((natToDigits n ++ 'M' :: rest).head? = some '+') := by
    rw [hhd]; simpa using digit_ne_plus c hcd
  unfold scanInt
  rw [dropWhile_space_digits, if_neg h1, if_neg h2, scanIntSigned_digits]
  simp

theorem scanInt_intToDigits (i : Int) (rest : List Char) :
    scanInt (intToDigits i ++ 'M' :: rest) = some i := by
  unfold intToDigits
  split
  · next hi =>
    rw [List.cons_append]
    have hdw : (('-' :: (natToDigits i.natAbs ++ 'M' :: rest)).dropWhile isSpaceChar)
        = '-' :: (natToDigits i.natAbs ++ 'M' :: rest) := by
      rw [List.dropWhile_cons]
      rw [show isSpaceChar '-' = false from by decide]
      simp
    unfold scanInt
    rw [hdw]
    rw [if_pos (by simp)]
    simp only [List.tail_cons]
    rw [scanIntSigned_digits]
    simp only [if_pos rfl, Option.some.injEq]
    rw [Int.ofNat_natAbs_of_nonpos (le_of_lt hi)]
    exact neg_neg i
  · next hi =>
    rw [scanInt_digits]
    rw [Int.natAbs_of_nonneg (by omega)]

theorem scanName_valid (nm rest : List Char) (hlen : nm.length ≤ TT_NAME_SZ)
    (hmem : '=' ∉ nm) : scanName (nm ++ '=' :: rest) = nm := by
  unfold scanName
  rw [takeWhile_append_stop _ nm '=' rest ?hall (by decide)]
  · exact take_eq_of_len_le nm TT_NAME_SZ hlen
  · intro c hc
    have : c ≠ '=' := fun he => hmem (he ▸ hc)
    simpa using this

theorem sscanf_valid (nm : List Char) (i : Int) (rest : List Char) (hne : nm ≠ [])
    (hlen : nm.length ≤ TT_NAME_SZ) (hmem : '=' ∉ nm) :
    sscanf_name_minutes (nm ++ '=' :: (intToDigits i ++ 'M' :: rest)) = some (nm, i) := by
  unfold sscanf_name_minutes
  rw [scanName_valid nm _ hlen hmem]
  rw [if_neg (by simpa [List.isEmpty_iff] using hne)]
  rw [drop_append_len]
  rw [if_pos (by simp)]
  simp only [List.tail_cons]
  rw [scanInt_intToDigits]

theorem parse_valid (nm : List Char) (i : Int) (h : ValidName nm) :
    parse_timetracker (nm ++ '=' :: (intToDigits i ++ ['M', '\n']))
      = ParseOut.tt ⟨nm, false, i * 60, 0⟩ := by
  obtain ⟨hne, hlen, hmem, hhead⟩ := h
  obtain ⟨a, as, rfl⟩ := List.exists_cons_of_ne_nil hne
  have hhd : ((a :: as) ++ '=' :: (intToDigits i ++ ['M', '\n'])).head? = some a := by
    simp
  have hassoc : (a :: as) ++ '=' :: (intToDigits i ++ ['M', '\n'])
      = ((a :: as) ++ '=' :: (intToDigits i ++ ['M'])) ++ ['\n'] := by
    simp
  have htrim : trimNewline ((a :: as) ++ '=' :: (intToDigits i ++ ['M', '\n']))
      = (a :: as) ++ '=' :: (intToDigits i ++ ['M']) := by
    unfold trimNewline
    rw [hassoc, List.getLast?_concat, if_pos rfl, List.dropLast_concat]
  unfold parse_timetracker
  rw [hhd, if_neg (by simpa using hhead), if_neg (by simp)]
  rw [htrim]
  have hs : sscanf_name_minutes ((a :: as) ++ '=' :: (intToDigits i ++ ['M']))
      = some (a :: as, i) := by
    have := sscanf_valid (a :: as) i [] hne hlen hmem
    simpa using this
  rw [hs]

/-! ### Loader loop lemmas -/

theorem parse_tt_shape (l : List Char) (t : Timetracker)
    (h : parse_timetracker l = ParseOut.tt t) :
    t.running = false ∧ t.finish_time = 0 := by
  unfold parse_timetracker at h
  split at h
  · exact absurd h (by simp)
  · split at h
    · exact absurd h (by simp)
    · split at h
      · next p hp =>
        cases h
        exact ⟨rfl, rfl⟩
      · exact absurd h (by simp)

theorem ttLoop_all_tt {lines : List (List Char)} {ts : List Timetracker}
    (h : List.Forall₂ (fun l t => parse_timetracker l = ParseOut.tt t) lines ts) :
    ∀ acc : List Timetracker, acc.length + ts.length ≤ MAX_TIMETRACKERS →
      ttLoop lines acc = some (acc ++ ts) := by
  induction h with
  | nil => intro acc _; simp [ttLoop]
  | @cons l t ls ts2 hp htail ih =>
    intro acc hlen
    rw [ttLoop]
    rw [if_neg (by simp [MAX_TIMETRACKERS] at hlen ⊢; omega)]
    rw [hp]
    have h2 := ih (acc ++ [t]) (by simp at hlen ⊢; omega)
    simp only [List.append_assoc, List.singleton_append] at h2
    exact h2

theorem ttLoop_append_split (xs ys : List (List Char)) :
    ∀ acc, ttLoop (xs ++ ys) acc = (ttLoop xs acc).bind (fun acc2 => ttLoop ys acc2) := by
  induction xs with
  | nil => intro acc; simp [ttLoop]
  | cons l xs ih =>
    intro acc
    rw [List.cons_append, ttLoop, ttLoop]
    split
    · rfl
    · split <;> simp [ih]

theorem ttLoop_len_le : ∀ (lines : List (List Char)) (acc res : List Timetracker),
    acc.length ≤ MAX_TIMETRACKERS → ttLoop lines acc = some res →
    res.length ≤ MAX_TIMETRACKERS := by
  intro lines
  induction lines with
  | nil =>
    intro acc res h hloop
    rw [ttLoop] at hloop
    cases hloop
    exact h
  | cons l rest ih =>
    intro acc res h hloop
    rw [ttLoop] at hloop
    by_cases hc : MAX_TIMETRACKERS ≤ acc.length
    · rw [if_pos hc] at hloop
      exact absurd hloop (by simp)
    · rw [if_neg hc] at hloop
      split at hloop
      · exact ih acc res h hloop
      · exact absurd hloop (by simp)
      · refine ih _ res ?hlen hloop
        simp
        omega

theorem ttLoop_inv : ∀ (lines : List (List Char)) (acc res : List Timetracker),
    ttLoop lines acc = some res → (∀ t ∈ acc, TimerInv t) → ∀ t ∈ res, TimerInv t := by
  intro lines
  induction lines with
  | nil =>
    intro acc res hloop hacc
    rw [ttLoop] at hloop
    cases hloop
    exact hacc
  | cons l rest ih =>
    intro acc res hloop hacc
    rw [ttLoop] at hloop
    by_cases hc : MAX_TIMETRACKERS ≤ acc.length
    · rw [if_pos hc] at hloop
      exact absurd hloop (by simp)
    · rw [if_neg hc] at hloop
      split at hloop
      · exact ih acc res hloop hacc
      · exact absurd hloop (by simp)
      · next t0 hp =>
        refine ih _ res hloop ?hall
        intro t ht
        rcases List.mem_append.mp ht with ht | ht
        · exact hacc t ht
        · obtain ⟨hr, hf⟩ := parse_tt_shape l t0 hp
          have heq : t = t0 := by simpa using ht
          subst heq
          exact ⟨fun _ => hf, fun htr => absurd (hr ▸ htr) (by simp)⟩

theorem forall2_parse_map {α : Type} (f : α → List Char) (g : α → Timetracker)
    (xs : List α) (h : ∀ x ∈ xs, parse_timetracker (f x) = ParseOut.tt (g x)) :
    List.Forall₂ (fun l t => parse_timetracker l = ParseOut.tt t) (xs.map f) (xs.map g) := by
  induction xs with
  | nil => simp
  | cons x xs ih =>
    simp only [List.map_cons]
    exact List.Forall₂.cons (h x (by simp)) (ih (fun y hy => h y (by simp [hy])))

/-! ### Claim theorems -/

/-- C3 (counterexample): at the concrete stopped timer with
remaining_seconds -1 (reachable, since the loader accepts a negative
minute count), turnOn then turnOff at instant 0 does not restore the
original remaining_seconds: the clamp in timetracker_off yields 0. -/
theorem on_off_same_instant_cex :
    ¬ ((timetracker_off (timetracker_on ⟨['A'], false, -1, 0⟩ 0) 0).running = false ∧
       (timetracker_off (timetracker_on ⟨['A'], false, -1, 0⟩ 0) 0).remaining_seconds
         = (Timetracker.mk ['A'] false (-1) 0).remaining_seconds) := by
  decide

/-- C3 (amended): for every stopped timer with non-negative banked
seconds and every instant, turnOn immediately followed by turnOff at the
same instant yields a stopped timer with the original remaining_seconds. -/
theorem on_off_same_instant_restores (t : Timetracker) (now : Int)
    (hr : t.running = false) (hrem : 0 ≤ t.remaining_seconds) :
    (timetracker_off (timetracker_on t now) now).running = false ∧
    (timetracker_off (timetracker_on t now) now).remaining_seconds
      = t.remaining_seconds := by
  rcases t with ⟨nm, r, rem, fin⟩
  dsimp only at hr hrem ⊢
  subst hr
  simp only [timetracker_on, timetracker_off]
  norm_num
  split_ifs with h1 <;> simp_all <;> omega

theorem on_off_same_instant_restores_witness :
    (timetracker_off (timetracker_on ⟨['A'], false, 300, 0⟩ 7) 7).running = false ∧
    (timetracker_off (timetracker_on ⟨['A'], false, 300, 0⟩ 7) 7).remaining_seconds
      = (Timetracker.mk ['A'] false 300 0).remaining_seconds :=
  on_off_same_instant_restores ⟨['A'], false, 300, 0⟩ 7 rfl (by decide)

/-- C4 (counterexample): at the concrete stopped timer with
remaining_seconds -1, two toggles at instant 0 restore the running flag
but not the effective remaining time, which the clamp turns into 0. -/
theorem toggle_involution_cex :
    ¬ ((toggle (toggle ⟨['A'], false, -1, 0⟩ 0) 0).running
         = (Timetracker.mk ['A'] false (-1) 0).running ∧
       effectiveRemaining (toggle (toggle ⟨['A'], false, -1, 0⟩ 0) 0) 0
         = effectiveRemaining ⟨['A'], false, -1, 0⟩ 0) := by
  decide

/-- C4 (amended): for every timer that, when stopped, has non-negative
banked seconds, two toggle calls at the same instant restore the running
flag and the effective remaining time. -/
theorem toggle_involution (t : Timetracker) (now : Int)
    (h : t.running = false → 0 ≤ t.remaining_seconds) :
    (toggle (toggle t now) now).running = t.running ∧
    effectiveRemaining (toggle (toggle t now) now) now
      = effectiveRemaining t now := by
  rcases t with ⟨nm, r, rem, fin⟩
  cases r
  · have hrem : 0 ≤ rem := h rfl
    simp only [toggle, timetracker_on, timetracker_off, effectiveRemaining]
    norm_num
    split_ifs <;> simp_all <;> omega
  · simp only [toggle, timetracker_on, timetracker_off, effectiveRemaining]
    norm_num
    split_ifs <;> simp_all <;> omega

theorem toggle_involution_witness :
    (toggle (toggle ⟨['A'], false, 300, 0⟩ 7) 7).running
      = (Timetracker.mk ['A'] false 300 0).running ∧
    effectiveRemaining (toggle (toggle ⟨['A'], false, 300, 0⟩ 7) 7) 7
      = effectiveRemaining ⟨['A'], false, 300, 0⟩ 7 :=
  toggle_involution ⟨['A'], false, 300, 0⟩ 7 (by decide)

/-- C5 (counterexample): at the concrete stopped timer with
remaining_seconds -1 (reachable: the loader accepts a line with a negative
minute count), observe returns a negative value. -/
theorem observe_nonneg_cex : ¬ (0 ≤ (observe ⟨['A'], false, -1, 0⟩ 0).1) := by
  decide

/-- C5 (amended): for every timer that, when stopped, has non-negative
banked seconds, and every instant, observe returns a non-negative value. -/
theorem observe_nonneg (t : Timetracker) (now : Int)
    (h : t.running = false → 0 ≤ t.remaining_seconds) :
    0 ≤ (observe t now).1 := by
  rcases t with ⟨nm, r, rem, fin⟩
  cases r
  · simpa [observe] using h rfl
  · simp only [observe]
    norm_num
    split_ifs <;> simp <;> omega

theorem observe_nonneg_witness : 0 ≤ (observe ⟨['A'], false, 300, 0⟩ 7).1 :=
  observe_nonneg ⟨['A'], false, 300, 0⟩ 7 (by decide)

/-- C6: a running timer whose finish time lies strictly before the
observation instant is observed as exactly 0 and is left stopped with
remaining_seconds 0 and finish_time 0. -/
theorem observe_expired_normalizes (t : Timetracker) (now : Int)
    (hr : t.running = true) (hf : t.finish_time < now) :
    (observe t now).1 = 0 ∧ (observe t now).2 = ⟨t.name, false, 0, 0⟩ := by
  rcases t with ⟨nm, r, rem, fin⟩
  dsimp only at hr hf ⊢
  subst hr
  simp [observe, timetracker_off, hf, le_of_lt hf]

theorem observe_expired_normalizes_witness :
    (observe ⟨['A'], true, 0, 100⟩ 101).1 = 0 ∧
    (observe ⟨['A'], true, 0, 100⟩ 101).2
      = ⟨(Timetracker.mk ['A'] true 0 100).name, false, 0, 0⟩ :=
  observe_expired_normalizes ⟨['A'], true, 0, 100⟩ 101 rfl (by decide)

/-- C10: a running timer observed at an instant exactly equal to its
finish time is observed as 0 but is not normalized: the self-healing
branch requires the finish time to be strictly in the past, so the timer
keeps running with its finish time unchanged. -/
theorem observe_at_finish_boundary (t : Timetracker) (now : Int)
    (hr : t.running = true) (hf : t.finish_time = now) :
    (observe t now).1 = 0 ∧ (observe t now).2 = t := by
  rcases t with ⟨nm, r, rem, fin⟩
  dsimp only at hr hf
  subst hr
  subst hf
  simp [observe]

theorem observe_at_finish_boundary_witness :
    (observe ⟨['A'], true, 0, 100⟩ 100).1 = 0 ∧
    (observe ⟨['A'], true, 0, 100⟩ 100).2 = ⟨['A'], true, 0, 100⟩ :=
  observe_at_finish_boundary ⟨['A'], true, 0, 100⟩ 100 rfl rfl

/-- A load that returns a set of timers did run the loop to completion. -/
theorem get_some_shape {lines : List (List Char)} {ts : List Timetracker}
    (h : get_timetrackers lines = some ts) : ttLoop lines [] = some ts := by
  unfold get_timetrackers at h
  rcases hacc : ttLoop lines [] with _ | acc <;> rw [hacc] at h
  · simp at h
  · dsimp only at h
    by_cases hz : acc.length = 0
    · rw [if_pos hz] at h
      exact absurd h (by simp)
    · rw [if_neg hz] at h
      cases h
      rfl

/-- Every engine operation preserves the data-model invariant. -/
theorem inv_ops (t : Timetracker) (now : Int) (hinv : TimerInv t) :
    TimerInv (timetracker_on t now) ∧ TimerInv (timetracker_off t now) ∧
    TimerInv (toggle t now) ∧ TimerInv (observe t now).2 ∧ TimerInv (zero t now) := by
  obtain ⟨hsf, hrr⟩ := hinv
  rcases t with ⟨nm, r, rem, fin⟩
  cases r
  · have hf : fin = 0 := hsf rfl
    subst hf
    clear hsf hrr
    refine ⟨?_, ?_, ?_, ?_, ?_⟩ <;>
      · simp only [timetracker_on, timetracker_off, toggle, observe, zero, TimerInv]
        norm_num
        try (split_ifs <;> simp_all)
  · have hm : rem = 0 := hrr rfl
    subst hm
    clear hsf hrr
    refine ⟨?_, ?_, ?_, ?_, ?_⟩ <;>
      · simp only [timetracker_on, timetracker_off, toggle, observe, zero, TimerInv]
        norm_num
        try (split_ifs <;> simp_all)

/-- C8: the invariant that the field not selected by the running flag is
pinned to zero holds for every timer produced by the loader and is
preserved by turnOn, turnOff, toggle, observe and zero at every instant. -/
theorem invariant_preserved :
    (∀ (lines : List (List Char)) (ts : List Timetracker),
        get_timetrackers lines = some ts → ∀ t ∈ ts, TimerInv t) ∧
    (∀ (t : Timetracker) (now : Int), TimerInv t →
        TimerInv (timetracker_on t now) ∧ TimerInv (timetracker_off t now) ∧
        TimerInv (toggle t now) ∧ TimerInv (observe t now).2 ∧
        TimerInv (zero t now)) := by
  constructor
  · intro lines ts hload t ht
    exact ttLoop_inv lines [] ts (get_some_shape hload) (by simp) t ht
  · exact inv_ops

theorem invariant_preserved_witness :
    TimerInv (timetracker_on ⟨['A'], false, 300, 0⟩ 7) :=
  (invariant_preserved.2 ⟨['A'], false, 300, 0⟩ 7 (by decide)).1

/-- C1: every config line of the valid shape name=NM is loaded as a timer
with running false, remaining_seconds N times 60 and finish_time 0, and
the timers keep the order of their lines. -/
theorem load_valid_lines_spec (pairs : List (List Char × Nat))
    (hv : ∀ p ∈ pairs, ValidName p.1) (hlo : 1 ≤ pairs.length)
    (hhi : pairs.length ≤ MAX_TIMETRACKERS) :
    get_timetrackers (pairs.map fun p => mkConfigLine p.1 p.2)
      = some (pairs.map fun p => ⟨p.1, false, (p.2 : Int) * 60, 0⟩) := by
  have hparse : ∀ p ∈ pairs, parse_timetracker (mkConfigLine p.1 p.2)
      = ParseOut.tt ⟨p.1, false, (p.2 : Int) * 60, 0⟩ := by
    intro p hp
    have hint : intToDigits ((p.2 : Nat) : Int) = natToDigits p.2 := by
      unfold intToDigits
      rw [if_neg (by omega), Int.natAbs_ofNat]
    have hpv := parse_valid p.1 ((p.2 : Nat) : Int) (hv p hp)
    rw [hint] at hpv
    exact hpv
  have hf2 := forall2_parse_map (fun p => mkConfigLine p.1 p.2)
    (fun p => ⟨p.1, false, (p.2 : Int) * 60, 0⟩) pairs hparse
  have hloop := ttLoop_all_tt hf2 [] (by simpa using hhi)
  unfold get_timetrackers
  rw [hloop]
  dsimp only
  rw [if_neg (by simp only [List.nil_append, List.length_map]; omega)]
  simp

theorem load_valid_lines_spec_witness :
    get_timetrackers ([(['A'], 5)].map fun p => mkConfigLine p.1 p.2)
      = some ([(['A'], 5)].map fun p => ⟨p.1, false, (p.2 : Int) * 60, 0⟩) :=
  load_valid_lines_spec [(['A'], 5)] (by decide) (by decide) (by decide)

/-- C2 (code defect evidence): a line holding only a newline is not
skipped: the length check runs before the newline is trimmed, so the line
reaches sscanf as an empty string and parse_timetracker returns -1000,
which makes the whole load fail; a comment line is skipped as documented. -/
theorem blank_line_fails_load :
    parse_timetracker ['\n'] = ParseOut.err (-1000) ∧
    parse_timetracker ['#', 'c', '\n'] = ParseOut.skip ∧
    get_timetrackers [['A', '=', '5', 'M', '\n'], ['\n']] = none := by
  decide

/-- C9: once capacity-many timers have been parsed, any further line, of
any content, fails the load; consequently a successful load never holds
more than capacity-many timers, and a file with a full prefix and any
extra line fails as a whole. -/
theorem capacity_overflow_fails :
    (∀ (l : List Char) (rest : List (List Char)) (acc : List Timetracker),
        MAX_TIMETRACKERS ≤ acc.length → ttLoop (l :: rest) acc = none) ∧
    (∀ (lines : List (List Char)) (ts : List Timetracker),
        get_timetrackers lines = some ts → ts.length ≤ MAX_TIMETRACKERS) ∧
    (∀ (pre : List (List Char)) (l : List Char) (rest : List (List Char))
        (ts : List Timetracker), ttLoop pre [] = some ts →
        MAX_TIMETRACKERS ≤ ts.length → get_timetrackers (pre ++ l :: rest) = none) := by
  have hfull : ∀ (l : List Char) (rest : List (List Char)) (acc : List Timetracker),
      MAX_TIMETRACKERS ≤ acc.length → ttLoop (l :: rest) acc = none := by
    intro l rest acc h
    rw [ttLoop, if_pos h]
  refine ⟨hfull, ?_, ?_⟩
  · intro lines ts hload
    exact ttLoop_len_le lines [] ts (by simp) (get_some_shape hload)
  · intro pre l rest ts hpre hlen
    have hnone : ttLoop (pre ++ l :: rest) [] = none := by
      rw [ttLoop_append_split pre (l :: rest) [], hpre]
      simpa using hfull l rest ts hlen
    unfold get_timetrackers
    rw [hnone]

theorem capacity_overflow_fails_witness :
    ttLoop [['#']] (List.replicate 9 ⟨['A'], false, 0, 0⟩) = none :=
  capacity_overflow_fails.1 ['#'] [] (List.replicate 9 ⟨['A'], false, 0, 0⟩) (by decide)

/-- C7: for a set of stopped timers with wellformed names, within
capacity, saving and reloading succeeds and reproduces the same ordered
names, all stopped, with each remaining_seconds rounded down to a whole
number of minutes. -/
theorem load_save_roundtrip (ts : List Timetracker)
    (hstopped : ∀ t ∈ ts, t.running = false) (hnames : ∀ t ∈ ts, ValidName t.name)
    (hlo : 1 ≤ ts.length) (hhi : ts.length ≤ MAX_TIMETRACKERS) :
    get_timetrackers (save ts)
      = some (ts.map fun t => ⟨t.name, false, Int.fdiv t.remaining_seconds 60 * 60, 0⟩) := by
  have hparse : ∀ t ∈ ts, parse_timetracker (saveLine t)
      = ParseOut.tt ⟨t.name, false, Int.fdiv t.remaining_seconds 60 * 60, 0⟩ := by
    intro t ht
    unfold saveLine
    exact parse_valid t.name (Int.fdiv t.remaining_seconds 60) (hnames t ht)
  have hf2 := forall2_parse_map saveLine
    (fun t => ⟨t.name, false, Int.fdiv t.remaining_seconds 60 * 60, 0⟩) ts hparse
  have hloop := ttLoop_all_tt hf2 [] (by simpa using hhi)
  unfold get_timetrackers save
  rw [hloop]
  dsimp only
  rw [if_neg (by simp only [List.nil_append, List.length_map]; omega)]
  simp

theorem load_save_roundtrip_witness :
    get_timetrackers (save [⟨['A'], false, 90, 0⟩])
      = some (([⟨['A'], false, 90, 0⟩] : List Timetracker).map fun t =>
          (⟨t.name, false, Int.fdiv t.remaining_seconds 60 * 60, 0⟩ : Timetracker)) :=
  load_save_roundtrip [⟨['A'], false, 90, 0⟩] (by decide) (by decide)
    (by decide) (by decide)
